import Mathlib

/-!
Verification of the Horizone RAG backend (`main.py`) against its
natural-language specification.

The development shallowly embeds the parts of the program the claims are
about:

* `resize_embedding` — the embedding dimensionality adjustment
  (`main.py`, lines 45–60), embedding vectors as lists of rationals
  (the source only copies components and writes literal zeros, so no
  floating-point arithmetic is involved);
* `pySplit` / `streamChunks` — the whitespace tokenisation used by the
  streaming generator (`answer.split()` followed by `yield word + " "`,
  lines 179–181);
* `HistoryDB` with `histAppend` / `listAll` / `clearAll` — the SQLite
  `chat_history` table (AUTOINCREMENT primary key, `INSERT`,
  `SELECT ... ORDER BY id DESC`, `DELETE`, lines 140–206);
* `stream_answer_run` — the control flow of the `stream_answer`
  generator: generation call, history insert, then chunk emission
  (lines 156–181), with the two external failure points (generation
  provider, storage) made explicit parameters;
* `startupCheck` — the module-level configuration validation
  (lines 33–37).
-/

namespace Horizone

/-! ## Embedding Adapter: `resize_embedding` -/

/-- Embedding of `resize_embedding(embedding, target_size=1024)` from
`main.py` lines 45–60.  If the length already matches the target the
input is returned unchanged; if it is longer, the first `target_size`
components are kept (`embedding_array[:target_size]`); otherwise the
vector is written into a zero vector of the target length
(`padded = np.zeros(target_size); padded[:len(embedding)] = ...`),
i.e. it is padded with zeros. -/
def resize_embedding (embedding : List ℚ) (target_size : ℕ) : List ℚ :=
  if embedding.length = target_size then
    embedding
  else if target_size < embedding.length then
    embedding.take target_size
  else
    embedding ++ List.replicate (target_size - embedding.length) 0

/-- The default target size used by the code (`target_size=1024`). -/
def defaultTargetSize : ℕ := 1024

theorem resize_embedding_length (v : List ℚ) (D : ℕ) :
    (resize_embedding v D).length = D := by
  unfold resize_embedding
  split
  · assumption
  · split
    · simp only [List.length_take]
      omega
    · simp only [List.length_append, List.length_replicate]
      omega

/-- C1: for a raw embedding of length `N` and target dimension `D`:
if `N = D` the input is returned unchanged; if `N > D` the result has
length `D` and equals the first `D` input elements; if `N < D` the
result has length `D`, its first `N` elements equal the input, and the
remaining `D - N` elements are all zero. -/
theorem resize_embedding_spec (v : List ℚ) (D : ℕ) :
    (v.length = D → resize_embedding v D = v)
    ∧ (D < v.length →
        (resize_embedding v D).length = D ∧ resize_embedding v D = v.take D)
    ∧ (v.length < D →
        (resize_embedding v D).length = D
        ∧ (resize_embedding v D).take v.length = v
        ∧ (resize_embedding v D).drop v.length
            = List.replicate (D - v.length) 0) := by
  refine ⟨fun h => ?_, fun h => ?_, fun h => ?_⟩
  · simp [resize_embedding, h]
  · have hne : v.length ≠ D := by omega
    exact ⟨resize_embedding_length v D, by simp [resize_embedding, hne, h]⟩
  · have hne : v.length ≠ D := by omega
    have hnl : ¬ D < v.length := by omega
    refine ⟨resize_embedding_length v D, ?_, ?_⟩
    · simp [resize_embedding, hne, hnl, List.take_append_of_le_length]
    · simp [resize_embedding, hne, hnl, List.drop_append_of_le_length]

/-- C1 witness: the three cases of `resize_embedding_spec` evaluated at
concrete vectors with target dimension 3. -/
theorem resize_embedding_spec_witness :
    resize_embedding [1, 2, 3] 3 = [1, 2, 3]
    ∧ resize_embedding [1, 2, 3, 4] 3 = [1, 2, 3]
    ∧ (resize_embedding [1, 2] 3).take 2 = [1, 2]
    ∧ (resize_embedding [1, 2] 3).drop 2 = [0] :=
  ⟨(resize_embedding_spec [1, 2, 3] 3).1 (by decide),
   ((resize_embedding_spec [1, 2, 3, 4] 3).2.1 (by decide)).2.trans (by decide),
   ((resize_embedding_spec [1, 2] 3).2.2 (by decide)).2.1.trans (by decide),
   ((resize_embedding_spec [1, 2] 3).2.2 (by decide)).2.2.trans (by decide)⟩

/-- C9: `resize_embedding` always returns a vector of exactly the target
length, and it is idempotent: resizing an already-resized vector returns
it unchanged. -/
theorem resize_embedding_idempotent (v : List ℚ) (D : ℕ) :
    (resize_embedding v D).length = D
    ∧ resize_embedding (resize_embedding v D) D = resize_embedding v D := by
  have fix : ∀ w : List ℚ, w.length = D → resize_embedding w D = w := by
    intro w hw
    simp [resize_embedding, hw]
  exact ⟨resize_embedding_length v D,
    fix (resize_embedding v D) (resize_embedding_length v D)⟩

/-! ## Streaming Presenter: `answer.split()` and `yield word + " "` -/

/-- The characters Python's `str.split()` (no argument) treats as
whitespace: exactly those `c` with `c.isspace()` true — the ASCII
whitespace and separator controls, NEL, NBSP, and the Unicode space /
line / paragraph separators. -/
def isPySpace (c : Char) : Bool :=
  let n := c.toNat
  decide (9 ≤ n ∧ n ≤ 13) || decide (28 ≤ n ∧ n ≤ 32)
    || n == 0x85 || n == 0xA0 || n == 0x1680
    || decide (0x2000 ≤ n ∧ n ≤ 0x200A)
    || n == 0x2028 || n == 0x2029 || n == 0x202F || n == 0x205F
    || n == 0x3000

/-- Whether a character list starts with a non-whitespace character. -/
def startsNonSpace : List Char → Bool
  | [] => false
  | d :: _ => ! isPySpace d

/-- Embedding of Python's `answer.split()` (no argument): the maximal
runs of non-whitespace characters of the input, in order; leading,
trailing and repeated whitespace produce no empty tokens.  A
non-whitespace character extends the token started by the following
character when that one is also non-whitespace, and otherwise starts a
token of its own. -/
def pySplit : List Char → List (List Char)
  | [] => []
  | c :: cs =>
    if isPySpace c then pySplit cs
    else if startsNonSpace cs then
      match pySplit cs with
      | [] => [[c]]
      | t :: ts => (c :: t) :: ts
    else [c] :: pySplit cs

/-- Embedding of the emission loop of `stream_answer`
(`for word in answer.split(): yield word + " "`, `main.py` lines
179–180): each whitespace-delimited token of the answer is emitted as
one chunk, suffixed with a single space separator. -/
def streamChunks (answer : List Char) : List (List Char) :=
  (pySplit answer).map (fun w => w ++ [' '])

theorem pySplit_ne_nil_of_startsNonSpace (l : List Char)
    (h : startsNonSpace l = true) : pySplit l ≠ [] := by
  match l with
  | [] => simp [startsNonSpace] at h
  | d :: ds =>
    have hd : isPySpace d = false := by
      simpa [startsNonSpace] using h
    rw [pySplit]
    simp only [hd, Bool.false_eq_true, if_false]
    split
    · split <;> simp
    · simp

theorem pySplit_eq_nil_of_all_space (l : List Char)
    (h : ∀ c ∈ l, isPySpace c = true) : pySplit l = [] := by
  induction l with
  | nil => rfl
  | cons c cs ih =>
    have hc : isPySpace c = true := h c (List.mem_cons_self c cs)
    rw [pySplit]
    simp only [hc, if_true]
    exact ih (fun d hd => h d (List.mem_cons_of_mem c hd))

theorem pySplit_join (l : List Char) :
    (pySplit l).flatten = l.filter (fun c => ! isPySpace c) := by
  induction l with
  | nil => rfl
  | cons c cs ih =>
    rw [pySplit]
    by_cases hc : isPySpace c = true
    · simp [hc, ih, List.filter_cons]
    · have hc' : isPySpace c = false := by
        cases h : isPySpace c
        · rfl
        · exact absurd h hc
      simp only [hc', Bool.false_eq_true, if_false]
      by_cases hs : startsNonSpace cs = true
      · simp only [hs, if_true]
        cases hps : pySplit cs with
        | nil => exact absurd hps (pySplit_ne_nil_of_startsNonSpace cs hs)
        | cons t ts =>
          rw [hps] at ih
          simp only [List.flatten_cons, List.filter_cons, hc',
            Bool.not_false, if_true]
          rw [← ih]
          simp [List.flatten_cons]
      · simp only [hs, if_false]
        simp [List.flatten_cons, ih, List.filter_cons, hc']

theorem pySplit_tokens (l : List Char) :
    ∀ t ∈ pySplit l, t ≠ [] ∧ ∀ c ∈ t, isPySpace c = false := by
  induction l with
  | nil => intro t ht; simp [pySplit] at ht
  | cons c cs ih =>
    intro t ht
    rw [pySplit] at ht
    by_cases hc : isPySpace c = true
    · simp only [hc, if_true] at ht
      exact ih t ht
    · have hc' : isPySpace c = false := by
        cases h : isPySpace c
        · rfl
        · exact absurd h hc
      simp only [hc', Bool.false_eq_true, if_false] at ht
      by_cases hs : startsNonSpace cs = true
      · simp only [hs, if_true] at ht
        cases hps : pySplit cs with
        | nil => exact absurd hps (pySplit_ne_nil_of_startsNonSpace cs hs)
        | cons u us =>
          rw [hps] at ht
          rcases List.mem_cons.mp ht with h1 | h2
          · subst h1
            have hu := ih u (hps ▸ List.mem_cons_self u us)
            refine ⟨by simp, ?_⟩
            intro d hd
            rcases List.mem_cons.mp hd with rfl | hd'
            · exact hc'
            · exact hu.2 d hd'
          · exact ih t (hps ▸ List.mem_cons_of_mem u h2)
      · simp only [hs, if_false] at ht
        rcases List.mem_cons.mp ht with h1 | h2
        · subst h1
          exact ⟨by simp, by intro d hd; simp at hd; subst hd; exact hc'⟩
        · exact ih t h2

/-- C2: on a non-empty answer the stream emits one chunk per
whitespace-delimited token of the answer, in original order, each chunk
being the token followed by the separator `" "`.  Removing the appended
separator from each chunk recovers the tokenization exactly; the tokens
are non-empty, contain no whitespace, and their concatenation is the
answer with its whitespace removed, so the chunks reconstruct the
whitespace-delimited tokenization of the answer. -/
theorem stream_chunks_spec (answer : List Char) (hne : answer ≠ []) :
    (streamChunks answer).map List.dropLast = pySplit answer
    ∧ (∀ ch ∈ streamChunks answer, ∃ w ∈ pySplit answer, ch = w ++ [' '])
    ∧ (pySplit answer).flatten = answer.filter (fun c => ! isPySpace c)
    ∧ ∀ w ∈ pySplit answer, w ≠ [] ∧ ∀ c ∈ w, isPySpace c = false := by
  refine ⟨?_, ?_, pySplit_join answer, pySplit_tokens answer⟩
  · unfold streamChunks
    rw [List.map_map]
    have : (List.dropLast ∘ fun w : List Char => w ++ [' ']) = id := by
      funext w
      simp [List.dropLast_concat]
    rw [this, List.map_id]
  · intro ch hch
    unfold streamChunks at hch
    rcases List.mem_map.mp hch with ⟨w, hw, rfl⟩
    exact ⟨w, hw, rfl⟩

/-- C2 witness: `stream_chunks_spec` applied to the concrete answer
`"ab c"`, whose chunks are `["ab ", "c "]`. -/
theorem stream_chunks_spec_witness :
    streamChunks [Char.ofNat 97, Char.ofNat 98, ' ', Char.ofNat 99]
      = [[Char.ofNat 97, Char.ofNat 98, ' '], [Char.ofNat 99, ' ']]
    ∧ (streamChunks [Char.ofNat 97, Char.ofNat 98, ' ', Char.ofNat 99]).map
        List.dropLast
      = pySplit [Char.ofNat 97, Char.ofNat 98, ' ', Char.ofNat 99] :=
  ⟨by decide,
   (stream_chunks_spec [Char.ofNat 97, Char.ofNat 98, ' ', Char.ofNat 99]
     (by decide)).1⟩

/-! ## History Store: the SQLite `chat_history` table

The table is `chat_history (id INTEGER PRIMARY KEY AUTOINCREMENT,
question TEXT, answer TEXT)` (`main.py` lines 143–149).  `AUTOINCREMENT`
assigns each inserted row an id strictly greater than every id ever
used, tracked here by `nextId`; `DELETE FROM chat_history` does not
reset that counter.  Rows are kept in insertion order; reads go through
`SELECT question, answer FROM chat_history ORDER BY id DESC`. -/

/-- One row of the `chat_history` table. -/
structure HRow where
  id : ℕ
  question : List Char
  answer : List Char
deriving DecidableEq

/-- The state of the `chat_history` table: the next id the
`AUTOINCREMENT` column will assign, and the stored rows in insertion
order. -/
structure HistoryDB where
  nextId : ℕ
  rows : List HRow
deriving DecidableEq

/-- The freshly created table: no rows, `AUTOINCREMENT` starts at 1. -/
def initialDB : HistoryDB := ⟨1, []⟩

/-- Embedding of
`INSERT INTO chat_history (question, answer) VALUES (?, ?)`
(`main.py` line 176): a new row with the next `AUTOINCREMENT` id is
added after all existing rows. -/
def histAppend (db : HistoryDB) (q a : List Char) : HistoryDB :=
  { nextId := db.nextId + 1, rows := db.rows ++ [⟨db.nextId, q, a⟩] }

/-- Embedding of `DELETE FROM chat_history` (`main.py` line 202): every
row is removed; the `AUTOINCREMENT` counter is untouched. -/
def clearAll (db : HistoryDB) : HistoryDB := { db with rows := [] }

/-- Insertion step of sorting rows by descending id. -/
def insertDescById (r : HRow) : List HRow → List HRow
  | [] => [r]
  | s :: rest =>
    if s.id ≤ r.id then r :: s :: rest else s :: insertDescById r rest

/-- Sorting rows by descending id, modelling `ORDER BY id DESC`. -/
def sortDescById : List HRow → List HRow
  | [] => []
  | r :: rest => insertDescById r (sortDescById rest)

/-- Embedding of
`SELECT question, answer FROM chat_history ORDER BY id DESC`
(`main.py` lines 194–195): the `(question, answer)` pairs of all rows,
most recent (largest id) first. -/
def listAll (db : HistoryDB) : List (List Char × List Char) :=
  (sortDescById db.rows).map (fun r => (r.question, r.answer))

/-- Well-formedness of a table state: row ids strictly increase in
insertion order and are all below the `AUTOINCREMENT` counter.  This
holds for every state the program can reach (see `runOps_WF`). -/
def WF (db : HistoryDB) : Prop :=
  db.rows.Pairwise (fun r s => r.id < s.id) ∧ ∀ r ∈ db.rows, r.id < db.nextId

instance (db : HistoryDB) : Decidable (WF db) := by
  unfold WF
  infer_instance

theorem insertDescById_of_all_gt (r : HRow) (l : List HRow)
    (h : ∀ s ∈ l, r.id < s.id) : insertDescById r l = l ++ [r] := by
  induction l with
  | nil => rfl
  | cons s rest ih =>
    have hs : ¬ s.id ≤ r.id := by
      have := h s (List.mem_cons_self s rest)
      omega
    rw [insertDescById]
    simp only [hs, if_false, List.cons_append, List.cons.injEq, true_and]
    exact ih (fun t ht => h t (List.mem_cons_of_mem s ht))

theorem sortDescById_of_ascending (l : List HRow)
    (h : l.Pairwise (fun r s => r.id < s.id)) :
    sortDescById l = l.reverse := by
  induction l with
  | nil => rfl
  | cons r rest ih =>
    rcases List.pairwise_cons.mp h with ⟨hr, hrest⟩
    rw [sortDescById, ih hrest, List.reverse_cons]
    exact insertDescById_of_all_gt r rest.reverse
      (fun s hs => hr s (List.mem_reverse.mp hs))

theorem histAppend_WF (db : HistoryDB) (q a : List Char) (h : WF db) :
    WF (histAppend db q a) := by
  rcases h with ⟨hpair, hlt⟩
  constructor
  · rw [histAppend, List.pairwise_append]
    refine ⟨hpair, List.pairwise_singleton _ _, ?_⟩
    intro r hr s hs
    simp only [List.mem_singleton] at hs
    subst hs
    exact hlt r hr
  · intro r hr
    rw [histAppend] at hr
    simp only [List.mem_append, List.mem_singleton] at hr
    rcases hr with hr | rfl
    · exact Nat.lt_succ_of_lt (hlt r hr)
    · exact Nat.lt_succ_self _

/-- C5: on a well-formed history state, `append(question, answer)`
followed by `list_all()` yields the just-appended record first, followed
by exactly the previous listing: every record appended later appears
before every record appended earlier. -/
theorem append_then_listAll (db : HistoryDB) (q a : List Char)
    (h : WF db) :
    listAll (histAppend db q a) = (q, a) :: listAll db
    ∧ (listAll (histAppend db q a)).head? = some (q, a) := by
  have hwf' := histAppend_WF db q a h
  have hsort : sortDescById (histAppend db q a).rows
      = ⟨db.nextId, q, a⟩ :: db.rows.reverse := by
    rw [sortDescById_of_ascending _ hwf'.1]
    rw [histAppend]
    simp
  have hmain : listAll (histAppend db q a) = (q, a) :: listAll db := by
    rw [listAll, hsort, listAll, sortDescById_of_ascending _ h.1]
    simp
  exact ⟨hmain, by rw [hmain]; rfl⟩

/-- C5 witness: `append_then_listAll` applied to the concrete one-row
table obtained by appending `("q0","a0")` to the fresh table; appending
`("q1","a1")` puts the new pair first. -/
theorem append_then_listAll_witness :
    WF (histAppend initialDB [Char.ofNat 113] [Char.ofNat 97])
    ∧ listAll (histAppend (histAppend initialDB [Char.ofNat 113]
          [Char.ofNat 97]) [Char.ofNat 114] [Char.ofNat 98])
      = [([Char.ofNat 114], [Char.ofNat 98]),
         ([Char.ofNat 113], [Char.ofNat 97])] :=
  ⟨by decide,
   ((append_then_listAll (histAppend initialDB [Char.ofNat 113]
       [Char.ofNat 97]) [Char.ofNat 114] [Char.ofNat 98]
       (by decide)).1).trans (by decide)⟩

/-- C6: `clear_all()` deletes every record, and `list_all()` immediately
after returns the empty sequence, for every history state. -/
theorem clear_then_listAll (db : HistoryDB) :
    (clearAll db).rows = [] ∧ listAll (clearAll db) = [] :=
  ⟨rfl, rfl⟩

/-- The operations the program ever performs on the `chat_history`
table: inserting a new question/answer row (`/query/`) and deleting all
rows (`/clear_history/`); reading (`/history/`) does not change the
state.  No update or delete-by-id statement occurs in the source. -/
inductive HistOp where
  | append (q a : List Char)
  | clear
deriving DecidableEq

/-- Applying one table operation. -/
def applyOp (db : HistoryDB) : HistOp → HistoryDB
  | .append q a => histAppend db q a
  | .clear => clearAll db

/-- The table state after a sequence of operations on the fresh table. -/
def runOps (ops : List HistOp) : HistoryDB :=
  ops.foldl applyOp initialDB

theorem foldl_applyOp_WF (ops : List HistOp) :
    ∀ db : HistoryDB, WF db → WF (ops.foldl applyOp db) := by
  induction ops with
  | nil => exact fun db h => h
  | cons op rest ih =>
    intro db h
    rw [List.foldl_cons]
    refine ih _ ?_
    cases op with
    | append q a => exact histAppend_WF db q a h
    | clear => exact ⟨List.Pairwise.nil, by intro r hr; simp [applyOp, clearAll] at hr⟩

theorem runOps_WF (ops : List HistOp) : WF (runOps ops) :=
  foldl_applyOp_WF ops initialDB ⟨List.Pairwise.nil, by intro r hr; simp [initialDB] at hr⟩

/-- C8: in every reachable history state the row ids strictly increase
in insertion order, and the id `append` assigns next is strictly greater
than the id of every stored record, so ids are monotonically increasing
across appends.  Moreover `append` extends the table without touching
existing rows (the old row list is a prefix of the new one and every old
row is unchanged), and the only operations are append, read and bulk
clear — `HistOp` has no update or delete-by-id constructor. -/
theorem history_ids_monotone (ops : List HistOp) (q a : List Char) :
    (((runOps ops).rows.map HRow.id).Pairwise (· < ·))
    ∧ (∀ r ∈ (runOps ops).rows, r.id < (runOps ops).nextId)
    ∧ List.IsPrefix (runOps ops).rows
        (applyOp (runOps ops) (HistOp.append q a)).rows
    ∧ (applyOp (runOps ops) (HistOp.append q a)).rows
        = (runOps ops).rows ++ [⟨(runOps ops).nextId, q, a⟩] := by
  have h := runOps_WF ops
  refine ⟨?_, h.2, ?_, rfl⟩
  · rw [List.pairwise_map]
    exact h.1
  · exact ⟨[⟨(runOps ops).nextId, q, a⟩], rfl⟩

/-! ## The `stream_answer` generator (`main.py` lines 156–181)

The generator performs, in order: the retrieval + generation call
(`await asyncio.to_thread(qa_chain.invoke, {"query": query})`), the
history insert (`INSERT ... ; conn.commit()`), and only then the chunk
emission loop.  The two external calls can raise; an exception
propagates out of the generator before any chunk has been yielded and
surfaces at the request boundary as the request's single error.  The
embedding makes the outcome of the external generation call and of the
storage write explicit parameters and returns the complete observable
outcome of one request: the chunks emitted to the caller, the error (if
any) that terminated the request, and the history state afterwards. -/

/-- An error terminating a `/query/` request: an exception from the
retrieval/generation provider call, or one from the SQLite write. -/
inductive PipelineError where
  | provider (msg : List Char)
  | storage
deriving DecidableEq

/-- The observable outcome of one `/query/` request: the chunks emitted
to the caller, the terminating error if one occurred, and the history
state after the request. -/
structure StreamOutcome where
  emitted : List (List Char)
  failure : Option PipelineError
  db : HistoryDB
deriving DecidableEq

/-- Embedding of the `stream_answer` generator's control flow
(`main.py` lines 156–181).  `gen` is the result of the external
`qa_chain.invoke` call (`Except.error` when the provider raises,
`Except.ok answer` otherwise); `storageOk` is whether the SQLite
insert/commit succeeds.  If generation fails, nothing is emitted, the
error surfaces, and the history is untouched; if generation succeeds
but the insert raises, nothing is emitted and the history is untouched;
only when both succeed are the answer's chunks emitted, after the
history row has been written. -/
def stream_answer_run (gen : Except (List Char) (List Char))
    (storageOk : Bool) (db : HistoryDB) (query : List Char) :
    StreamOutcome :=
  match gen with
  | .error e => ⟨[], some (.provider e), db⟩
  | .ok answer =>
    if storageOk then
      ⟨streamChunks answer, none, histAppend db query answer⟩
    else
      ⟨[], some .storage, db⟩

/-- C3: when the generation provider raises, the request terminates with
an error, no chunk is emitted, and the history store is unchanged — no
History Record is created for that query. -/
theorem generation_error_no_history (e : List Char) (storageOk : Bool)
    (db : HistoryDB) (q : List Char) :
    (stream_answer_run (Except.error e) storageOk db q).failure
        = some (PipelineError.provider e)
    ∧ (stream_answer_run (Except.error e) storageOk db q).emitted = []
    ∧ (stream_answer_run (Except.error e) storageOk db q).db = db
    ∧ listAll (stream_answer_run (Except.error e) storageOk db q).db
        = listAll db :=
  ⟨rfl, rfl, rfl, rfl⟩

/-- C4: a request never emits a chunk unless the full answer was
generated and the history append succeeded: whenever the request ends
in an error, zero chunks were emitted; whenever any chunk was emitted,
generation returned a full answer, the history row was written, the
emission is the complete chunk sequence of that answer, and no error
occurred.  The caller thus receives either a complete streamed answer
or a single error, never a partial stream followed by an error. -/
theorem no_partial_stream (gen : Except (List Char) (List Char))
    (storageOk : Bool) (db : HistoryDB) (q : List Char) :
    ((stream_answer_run gen storageOk db q).failure.isSome = true →
        (stream_answer_run gen storageOk db q).emitted = [])
    ∧ ((stream_answer_run gen storageOk db q).emitted ≠ [] →
        ∃ answer, gen = Except.ok answer
          ∧ (stream_answer_run gen storageOk db q).db = histAppend db q answer
          ∧ (stream_answer_run gen storageOk db q).emitted
              = streamChunks answer
          ∧ (stream_answer_run gen storageOk db q).failure = none)
    ∧ ((stream_answer_run gen storageOk db q).emitted = []
        ∨ ∃ answer, gen = Except.ok answer
            ∧ (stream_answer_run gen storageOk db q).emitted
                = streamChunks answer) := by
  cases gen with
  | error e => exact ⟨fun _ => rfl, fun h => absurd rfl h, Or.inl rfl⟩
  | ok answer =>
    cases storageOk with
    | false => exact ⟨fun _ => rfl, fun h => absurd rfl h, Or.inl rfl⟩
    | true =>
      refine ⟨fun h => ?_, fun _ => ⟨answer, rfl, rfl, rfl, rfl⟩,
        Or.inr ⟨answer, rfl, rfl⟩⟩
      simp [stream_answer_run] at h

/-- C4 witness: `no_partial_stream` applied at a successful concrete
request — the emitted chunks are the full chunk sequence of the answer
and the history row was written. -/
theorem no_partial_stream_witness :
    (stream_answer_run (Except.ok [Char.ofNat 104]) true initialDB
        [Char.ofNat 113]).emitted ≠ []
    ∧ ∃ answer, (Except.ok [Char.ofNat 104]
          : Except (List Char) (List Char)) = Except.ok answer
        ∧ (stream_answer_run (Except.ok [Char.ofNat 104]) true initialDB
            [Char.ofNat 113]).db
          = histAppend initialDB [Char.ofNat 113] answer
        ∧ (stream_answer_run (Except.ok [Char.ofNat 104]) true initialDB
            [Char.ofNat 113]).emitted = streamChunks answer
        ∧ (stream_answer_run (Except.ok [Char.ofNat 104]) true initialDB
            [Char.ofNat 113]).failure = none :=
  ⟨by decide,
   (no_partial_stream (Except.ok [Char.ofNat 104]) true initialDB
     [Char.ofNat 113]).2.1 (by decide)⟩

/-- C10: when the generated answer is empty or consists only of
whitespace, the request emits zero chunks and no error, and the history
record holding that question and answer is still appended. -/
theorem whitespace_answer_stream (db : HistoryDB) (q answer : List Char)
    (h : ∀ c ∈ answer, isPySpace c = true) :
    (stream_answer_run (Except.ok answer) true db q).emitted = []
    ∧ (stream_answer_run (Except.ok answer) true db q).failure = none
    ∧ (stream_answer_run (Except.ok answer) true db q).db
        = histAppend db q answer := by
  refine ⟨?_, rfl, rfl⟩
  show streamChunks answer = []
  rw [streamChunks, pySplit_eq_nil_of_all_space answer h]
  rfl

/-- C10 witness: `whitespace_answer_stream` applied to the concrete
answer `" "` (a single space). -/
theorem whitespace_answer_stream_witness :
    (∀ c ∈ [' '], isPySpace c = true)
    ∧ (stream_answer_run (Except.ok [' ']) true initialDB
        [Char.ofNat 113]).emitted = []
    ∧ (stream_answer_run (Except.ok [' ']) true initialDB
        [Char.ofNat 113]).db
      = histAppend initialDB [Char.ofNat 113] [' '] :=
  ⟨by decide,
   (whitespace_answer_stream initialDB [Char.ofNat 113] [' ']
     (by decide)).1,
   (whitespace_answer_stream initialDB [Char.ofNat 113] [' ']
     (by decide)).2.2⟩

/-! ## Startup configuration check (`main.py` lines 33–42)

The module reads `PINECONE_API_KEY`, `OPENAI_API_KEY` and `MYINDEX`
from the environment and raises `ValueError` at import time when either
API key is absent or empty (Python truthiness).  `MYINDEX` is *not*
part of that check: its value — possibly `None` — is passed on to the
external Pinecone client (`pc.Index(name=index_name)`). -/

/-- The environment variables the module reads at startup. -/
structure Env where
  pineconeApiKey : Option String
  openaiApiKey : Option String
  myindex : Option String
deriving DecidableEq

/-- Python truthiness of `os.getenv` results: `None` and the empty
string are falsy. -/
def truthy : Option String → Bool
  | none => false
  | some s => ! s.isEmpty

/-- The message of the `ValueError` raised at startup. -/
def valueErrorMsg : String :=
  "Ensure PINECONE_API_KEY and OPENAI_API_KEY are set in the environment."

/-- Embedding of the module-level configuration validation
(`if not PINECONE_API_KEY or not OPENAI_API_KEY: raise ValueError(...)`,
`main.py` lines 36–37): `Except.error` models the fatal `ValueError`
that prevents the service from starting. -/
def startupCheck (env : Env) : Except String Unit :=
  if ! truthy env.pineconeApiKey || ! truthy env.openaiApiKey then
    Except.error valueErrorMsg
  else
    Except.ok ()

/-- C7 counterexample: an environment with both API keys present but the
vector index name `MYINDEX` missing passes the startup validation — the
module's own configuration check does not fail fatally on a missing
index identifier, contrary to the claim that any missing required
configuration input is fatal at startup. -/
theorem startup_missing_index_not_fatal :
    (Env.mk (some "k1") (some "k2") none).myindex = none
    ∧ startupCheck (Env.mk (some "k1") (some "k2") none) = Except.ok () :=
  ⟨rfl, rfl⟩

/-- C7 (amended): the startup validation fails fatally exactly when the
`PINECONE_API_KEY` or `OPENAI_API_KEY` credential is missing or empty —
so missing credentials are a startup-time condition, never a per-request
one — and the check is entirely independent of the vector index name
`MYINDEX`, which is passed unvalidated to the external index client. -/
theorem startup_check_credentials_only (env : Env) :
    (startupCheck env = Except.error valueErrorMsg
      ↔ (truthy env.pineconeApiKey = false ∨ truthy env.openaiApiKey = false))
    ∧ (startupCheck env = Except.ok ()
      ↔ (truthy env.pineconeApiKey = true ∧ truthy env.openaiApiKey = true))
    ∧ startupCheck env
        = startupCheck ⟨env.pineconeApiKey, env.openaiApiKey, none⟩ := by
  cases hp : truthy env.pineconeApiKey <;>
    cases ho : truthy env.openaiApiKey <;>
      simp [startupCheck, hp, ho]

end Horizone
